import Mathlib

/-!
# Verification of the `miner` package (proof-of-work chain)

Shallow embedding of `src/miner/miner.go`.  Machine integers (`int`) are
modelled as `Int`; byte slices as `List Nat` (each entry `< 256`); Go strings
as `List Char` / `String`.  The SHA-256 function from `crypto/sha256` and the
hex encoder from `encoding/hex` are implemented executably below, so that
every claim can be evaluated on concrete chunks.
-/

set_option maxRecDepth 100000

namespace GoChain

/-! ## SHA-256 (crypto/sha256), executable -/

/-- Addition modulo 2^32. -/
def add32 (a b : Nat) : Nat := (a + b) % 4294967296

/-- Right rotation of a 32-bit word by `n`. -/
def rotr32 (n x : Nat) : Nat := ((x >>> n) ||| (x <<< (32 - n))) % 4294967296

/-- Logical right shift of a 32-bit word. -/
def shr32 (n x : Nat) : Nat := x >>> n

def bigSigma0 (x : Nat) : Nat := rotr32 2 x ^^^ rotr32 13 x ^^^ rotr32 22 x

def bigSigma1 (x : Nat) : Nat := rotr32 6 x ^^^ rotr32 11 x ^^^ rotr32 25 x

def smallSigma0 (x : Nat) : Nat := rotr32 7 x ^^^ rotr32 18 x ^^^ shr32 3 x

def smallSigma1 (x : Nat) : Nat := rotr32 17 x ^^^ rotr32 19 x ^^^ shr32 10 x

def chF (x y z : Nat) : Nat := (x &&& y) ^^^ ((x ^^^ 4294967295) &&& z)

def majF (x y z : Nat) : Nat := (x &&& y) ^^^ (x &&& z) ^^^ (y &&& z)

/-- The 64 SHA-256 round constants (FIPS 180-4), in decimal. -/
def roundK : List Nat :=
  [1116352408, 1899447441, 3049323471, 3921009573, 961987163, 1508970993,
   2453635748, 2870763221, 3624381080, 310598401, 607225278, 1426881987,
   1925078388, 2162078206, 2614888103, 3248222580, 3835390401, 4022224774,
   264347078, 604807628, 770255983, 1249150122, 1555081692, 1996064986,
   2554220882, 2821834349, 2952996808, 3210313671, 3336571891, 3584528711,
   113926993, 338241895, 666307205, 773529912, 1294757372, 1396182291,
   1695183700, 1986661051, 2177026350, 2456956037, 2730485921, 2820302411,
   3259730800, 3345764771, 3516065817, 3600352804, 4094571909, 275423344,
   430227734, 506948616, 659060556, 883997877, 958139571, 1322822218,
   1537002063, 1747873779, 1955562222, 2024104815, 2227730452, 2361852424,
   2428436474, 2756734187, 3204031479, 3329325298]

/-- SHA-256 working state: eight 32-bit words. -/
structure Sha2State where
  a : Nat
  b : Nat
  c : Nat
  d : Nat
  e : Nat
  f : Nat
  g : Nat
  h : Nat

/-- Initial SHA-256 hash value (FIPS 180-4), in decimal. -/
def initState : Sha2State :=
  ⟨1779033703, 3144134277, 1013904242, 2773480762,
   1359893119, 2600822924, 528734635, 1541459225⟩

/-- One SHA-256 compression round with constant `k` and schedule word `w`. -/
def round1 (s : Sha2State) (k w : Nat) : Sha2State :=
  let t1 := add32 s.h (add32 (bigSigma1 s.e) (add32 (chF s.e s.f s.g) (add32 k w)))
  let t2 := add32 (bigSigma0 s.a) (majF s.a s.b s.c)
  ⟨add32 t1 t2, s.a, s.b, s.c, add32 s.d t1, s.e, s.f, s.g⟩

/-- `acc` holds the schedule words produced so far, newest first; one more word. -/
def nextWord (acc : List Nat) : Nat :=
  add32 (add32 (smallSigma1 (acc.getD 1 0)) (acc.getD 6 0))
        (add32 (smallSigma0 (acc.getD 14 0)) (acc.getD 15 0))

/-- Extend the reversed schedule by `n` more words. -/
def extendLoop : Nat → List Nat → List Nat
  | 0, acc => acc.reverse
  | n + 1, acc => extendLoop n (nextWord acc :: acc)

/-- The 64-word message schedule from the 16 words of a block. -/
def msgSchedule (ws : List Nat) : List Nat := extendLoop 48 ws.reverse

/-- Group bytes into 32-bit words, big-endian. -/
def bytesToWords : List Nat → List Nat
  | b0 :: b1 :: b2 :: b3 :: rest =>
      (b0 * 16777216 + b1 * 65536 + b2 * 256 + b3) :: bytesToWords rest
  | _ => []

/-- Run the 64 rounds of the compression function. -/
def foldRounds (s : Sha2State) (kws : List (Nat × Nat)) : Sha2State :=
  kws.foldl (fun t kw => round1 t kw.1 kw.2) s

def addState (x y : Sha2State) : Sha2State :=
  ⟨add32 x.a y.a, add32 x.b y.b, add32 x.c y.c, add32 x.d y.d,
   add32 x.e y.e, add32 x.f y.f, add32 x.g y.g, add32 x.h y.h⟩

/-- Compress one 64-byte block into the running state. -/
def compressBlock (s : Sha2State) (block : List Nat) : Sha2State :=
  addState s (foldRounds s (roundK.zip (msgSchedule (bytesToWords block))))

/-- Fold the compression function over consecutive 64-byte blocks.  The first
argument is fuel making the recursion structural; each step consumes 64 bytes,
so fuel `l.length + 1` is always enough. -/
def processAux : Nat → Sha2State → List Nat → Sha2State
  | 0, s, _ => s
  | _ + 1, s, [] => s
  | fuel + 1, s, b :: rest =>
      processAux fuel (compressBlock s ((b :: rest).take 64)) ((b :: rest).drop 64)

def processBlocks (s : Sha2State) (l : List Nat) : Sha2State :=
  processAux (l.length + 1) s l

/-- Big-endian rendering of `n` on `k` bytes. -/
def natToBytesBE : Nat → Nat → List Nat
  | 0, _ => []
  | k + 1, n => natToBytesBE k (n / 256) ++ [n % 256]

/-- The four big-endian bytes of a 32-bit word. -/
def w32ToBytes (w : Nat) : List Nat :=
  [w / 16777216 % 256, w / 65536 % 256, w / 256 % 256, w % 256]

/-- SHA-256 padding: `0x80`, zeros to 56 mod 64, then the bit length on 8 bytes. -/
def padMessage (ms : List Nat) : List Nat :=
  ms ++ 128 :: List.replicate ((119 - ms.length % 64) % 64) 0
     ++ natToBytesBE 8 (8 * ms.length)

/-- SHA-256 digest (32 bytes) of a byte message. -/
def sha256 (ms : List Nat) : List Nat :=
  let s := processBlocks initState (padMessage ms)
  w32ToBytes s.a ++ w32ToBytes s.b ++ w32ToBytes s.c ++ w32ToBytes s.d ++
  w32ToBytes s.e ++ w32ToBytes s.f ++ w32ToBytes s.g ++ w32ToBytes s.h

/-! ## Hex, decimal and UTF-8 rendering -/

/-- Lowercase hexadecimal digit, also used as decimal digit for `n < 10`. -/
def hexDigit (n : Nat) : Char :=
  if n < 10 then Char.ofNat (48 + n) else Char.ofNat (87 + n)

/-- `hex.EncodeToString`: two lowercase hex characters per byte. -/
def hexEncode : List Nat → List Char
  | [] => []
  | b :: rest => hexDigit (b / 16) :: hexDigit (b % 16) :: hexEncode rest

/-- Decimal digits of a natural number; fuel-based structural recursion
(`n + 1` fuel always covers the digit count of `n`). -/
def itoaNatAux : Nat → Nat → List Char
  | 0, _ => []
  | fuel + 1, n =>
      if n < 10 then [hexDigit n]
      else itoaNatAux fuel (n / 10) ++ [hexDigit (n % 10)]

def itoaNat (n : Nat) : List Char := itoaNatAux (n + 1) n

/-- `strconv.Itoa`: decimal rendering of a (signed) integer. -/
def itoa (n : Int) : List Char :=
  if n < 0 then '-' :: itoaNat n.natAbs else itoaNat n.toNat

/-- UTF-8 bytes of one character. -/
def utf8Char (c : Char) : List Nat :=
  let n := c.toNat
  if n < 128 then [n]
  else if n < 2048 then [192 + n / 64, 128 + n % 64]
  else if n < 65536 then [224 + n / 4096, 128 + n / 64 % 64, 128 + n % 64]
  else [240 + n / 262144, 128 + n / 4096 % 64, 128 + n / 64 % 64, 128 + n % 64]

/-- UTF-8 bytes of a character sequence (Go `[]byte(s)`). -/
def utf8 : List Char → List Nat
  | [] => []
  | c :: rest => utf8Char c ++ utf8 rest

example : (sha256 (utf8 ('0' :: '0' :: []))).take 4 = [241, 83, 67, 146] := by decide

/-! ## The Chunk data model

`Chunk` mirrors the Go struct: `Parent *Chunk` becomes `Option Chunk` (a
snapshot of the parent's state), `Hash []byte` becomes `List Nat` (the Go zero
value `nil` is modelled by `[]`; this program never produces a non-nil empty
slice), the `int` fields become `Int`, and `time.Time` is modelled by its
RFC3339 string rendering (`""` for the zero value). -/

inductive Chunk : Type where
  | mk (Parent : Option Chunk) (Hash : List Nat) (Index PoW Difficulty : Int)
       (Data Timestamp : String) : Chunk

def Chunk.Parent : Chunk → Option Chunk
  | .mk p _ _ _ _ _ _ => p

def Chunk.Hash : Chunk → List Nat
  | .mk _ h _ _ _ _ _ => h

def Chunk.Index : Chunk → Int
  | .mk _ _ i _ _ _ _ => i

def Chunk.PoW : Chunk → Int
  | .mk _ _ _ w _ _ _ => w

def Chunk.Difficulty : Chunk → Int
  | .mk _ _ _ _ d _ _ => d

def Chunk.Data : Chunk → String
  | .mk _ _ _ _ _ s _ => s

def Chunk.Timestamp : Chunk → String
  | .mk _ _ _ _ _ _ t => t

/-- Field update `ck.Hash = h` (the only field stores the program performs on
an existing chunk besides `PoW`). -/
def Chunk.withHash : Chunk → List Nat → Chunk
  | .mk p _ i w d s t, h => .mk p h i w d s t

/-- Field update `ck.PoW = w`. -/
def Chunk.withPoW : Chunk → Int → Chunk
  | .mk p h i _ d s t, w => .mk p h i w d s t

/-- The Go zero value `Chunk{}` produced by `new(Chunk)`. -/
def zeroChunk : Chunk := .mk none [] 0 0 0 "" ""

/-- `func (ck Chunk) IsGenesis() bool`. -/
def Chunk.IsGenesis (ck : Chunk) : Bool := ck.Parent.isNone

/-- `func (ck Chunk) GetParent() *Chunk`: the parent, or a fresh zero chunk
for a genesis chunk. -/
def Chunk.GetParent (ck : Chunk) : Chunk :=
  match ck.Parent with
  | none => zeroChunk
  | some p => p

/-- `func (ck Chunk) IsMined() bool`: `return ck.PoW > 0`. -/
def Chunk.IsMined (ck : Chunk) : Bool := ck.PoW > 0

/-- `fmt.Sprintf("%0*d", dif, 0)`: the integer 0 zero-padded to minimum width
`dif`.  For `dif ≤ 0` the result is still the single character `'0'` (a
negative width sets the left-justify flag and pads with spaces). -/
def goPad (dif : Int) : List Char :=
  if dif ≤ 0 then '0' :: List.replicate (dif.natAbs - 1) ' '
  else List.replicate dif.toNat '0'

/-- `func (ck Chunk) ValidatePoW(pow int) bool`.  The Go body slices the
64-character digest as `sum[:dif]`, which panics unless
`0 ≤ dif ≤ len(sum)`; the panic is modelled by `none`. -/
def Chunk.ValidatePoW (ck : Chunk) (pow : Int) : Option Bool :=
  let c := itoa ck.GetParent.PoW ++ itoa pow
  let sum := hexEncode (sha256 (utf8 c))
  let dif := ck.Difficulty
  let pad := goPad dif
  if 0 ≤ dif ∧ dif ≤ (sum.length : Int) then
    some (decide (sum.take dif.toNat = pad))
  else
    none

/-- `func (ck Chunk) IsValidPoW() bool`: `return ck.ValidatePoW(ck.PoW)`. -/
def Chunk.IsValidPoW (ck : Chunk) : Option Bool := ck.ValidatePoW ck.PoW

/-! ## JSON encoding (`MarshalJSON` / `Encode`)

`encoding/json` output for the anonymous struct in `MarshalJSON`: the
synthesized `parent_hash` field first, then the `Chunk` fields in declaration
order, skipping `Parent` (tag `json:"-"`). -/

def lbrace : Char := Char.ofNat 123

def rbrace : Char := Char.ofNat 125

/-- JSON escaping of one character, as `encoding/json` does it. -/
def jsonEscapeChar (c : Char) : List Char :=
  if c = '"' then ['\\', '"']
  else if c = '\\' then ['\\', '\\']
  else if c = '\n' then ['\\', 'n']
  else if c = '\r' then ['\\', 'r']
  else if c = '\t' then ['\\', 't']
  else if c.toNat < 32 ∨ c = '<' ∨ c = '>' ∨ c = '&' then
    ['\\', 'u', '0', '0', hexDigit (c.toNat / 16), hexDigit (c.toNat % 16)]
  else if c.toNat = 8232 ∨ c.toNat = 8233 then
    ['\\', 'u', '2', '0', '2', hexDigit (c.toNat % 16)]
  else [c]

def jsonEscape : List Char → List Char
  | [] => []
  | c :: rest => jsonEscapeChar c ++ jsonEscape rest

/-- A JSON string literal. -/
def jsonStr (s : List Char) : List Char := '"' :: jsonEscape s ++ ['"']

/-- Standard base64 alphabet. -/
def b64Digit (n : Nat) : Char :=
  if n < 26 then Char.ofNat (65 + n)
  else if n < 52 then Char.ofNat (97 + (n - 26))
  else if n < 62 then Char.ofNat (48 + (n - 52))
  else if n = 62 then '+'
  else '/'

/-- Standard (padded) base64 encoding, as `encoding/json` uses for `[]byte`. -/
def base64 : List Nat → List Char
  | b0 :: b1 :: b2 :: rest =>
      b64Digit (b0 / 4) :: b64Digit (b0 % 4 * 16 + b1 / 16) ::
      b64Digit (b1 % 16 * 4 + b2 / 64) :: b64Digit (b2 % 64) :: base64 rest
  | [b0, b1] =>
      [b64Digit (b0 / 4), b64Digit (b0 % 4 * 16 + b1 / 16), b64Digit (b1 % 16 * 4), '=']
  | [b0] => [b64Digit (b0 / 4), b64Digit (b0 % 4 * 16), '=', '=']
  | [] => []

/-- JSON value of a `[]byte` field: `null` for nil, else a base64 string. -/
def jsonBytes : List Nat → List Char
  | [] => ['n', 'u', 'l', 'l']
  | bs => '"' :: base64 bs ++ ['"']

/-- `func (ck Chunk) MarshalJSON() ([]byte, error)`, as text.  Field order:
`parent_hash`, then the embedded alias fields `hash`, `index`, `pow`,
`difficulty`, `data`, `timestamp`. -/
def Chunk.MarshalJSON (ck : Chunk) : List Char :=
  lbrace :: "\"parent_hash\":".data ++ jsonBytes ck.GetParent.Hash
  ++ ",\"hash\":".data ++ jsonBytes ck.Hash
  ++ ",\"index\":".data ++ itoa ck.Index
  ++ ",\"pow\":".data ++ itoa ck.PoW
  ++ ",\"difficulty\":".data ++ itoa ck.Difficulty
  ++ ",\"data\":".data ++ jsonStr ck.Data.data
  ++ ",\"timestamp\":".data ++ jsonStr ck.Timestamp.data
  ++ [rbrace]

/-- `func (ck Chunk) Encode() (j []byte)`: the JSON bytes (the ignored
marshalling error cannot occur for these field types). -/
def Chunk.Encode (ck : Chunk) : List Nat := utf8 ck.MarshalJSON

/-- `func (ck *Chunk) GenerateHash(save bool) (sum []byte)`: temporarily nil
the `Hash` field, hash the encoding, then either commit the digest or restore
the old value.  Returns the digest together with the final receiver state. -/
def Chunk.GenerateHash (ck : Chunk) (save : Bool) : List Nat × Chunk :=
  let osum := ck.Hash
  let cleared := ck.withHash []
  let sum := sha256 cleared.Encode
  if save then (sum, cleared.withHash sum)
  else (sum, cleared.withHash osum)

/-- The local closure `re` in `IsValid`: `bytes.Equal(c.GenerateHash(false),
c.Hash)`, applied to a by-value copy of the chunk. -/
def reHash (c : Chunk) : Bool := decide ((c.GenerateHash false).1 = c.Hash)

/-- `func (ck Chunk) IsValid() bool`.  The `ck.IsGenesis()` test is the match
on `ck.Parent`; in the non-genesis branch `ck.GetParent()` is exactly the
parent.  The Go `&&` chains short-circuit: the parent's `IsValidPoW` (the only
sub-call that can panic) is reached only for a non-genesis chunk whose index
check passed; `none` propagates that panic.  When the index check fails the
result is `false` regardless of the self check (`pok && bok` with `pok =
false`). -/
def Chunk.IsValid (ck : Chunk) : Option Bool :=
  match ck.Parent with
  | none => some (ck.IsMined && reHash ck)
  | some pck =>
      if pck.Index + 1 = ck.Index then
        match pck.IsValidPoW with
        | none => none
        | some pw => some ((pw && reHash pck) && (ck.IsMined && reHash ck))
      else
        some false

/-- `func (ck *Chunk) Mine() (pow int)`: linear search for the first valid
nonce starting at 0.  The Go loop is unbounded; it is modelled by `Nat.find`
under the hypothesis that a solution exists (otherwise the Go code loops
forever).  Returns the found nonce and the updated receiver. -/
def Chunk.Mine (ck : Chunk)
    (h : ∃ n : Nat, ck.ValidatePoW (Int.ofNat n) = some true) : Int × Chunk :=
  let n : Nat := Nat.find h
  (Int.ofNat n, ck.withPoW (Int.ofNat n))

/-! ## Concrete chunks used in witnesses and counterexamples -/

/-- A genesis chunk with difficulty 1 (payload irrelevant to proof-of-work). -/
def g1 : Chunk := .mk none [] 0 0 1 "x" ""

/-- A genesis chunk with difficulty 0. -/
def d0 : Chunk := .mk none [] 0 0 0 "" ""

/-- A genesis chunk with difficulty 65, one more than the digest length. -/
def d65 : Chunk := .mk none [] 0 0 65 "" ""

/-- A mined genesis chunk: nonce 3 is the least solution of
`sha256("0" ++ "3")` at difficulty 1, and its stored hash is the digest of its
own encoding. -/
def pHashBytes : List Nat :=
  [217, 2, 83, 187, 77, 114, 94, 223, 59, 45, 22, 54, 114, 97, 46, 152,
   209, 168, 48, 52, 87, 100, 188, 6, 51, 156, 190, 182, 187, 206, 185, 81]

def chunkP : Chunk := .mk none pHashBytes 0 3 1 "a" "t"

/-- A child of `chunkP` with correct index, positive nonce and stored hash. -/
def cHashBytes : List Nat :=
  [83, 142, 13, 221, 87, 127, 132, 173, 161, 70, 237, 227, 215, 245, 40, 42,
   195, 153, 173, 147, 160, 118, 175, 234, 95, 143, 255, 0, 71, 253, 94, 9]

def chunkC : Chunk := .mk (some chunkP) cHashBytes 1 7 1 "b" "u"

/-- A chunk whose parent's nonce is 29: `sha256("29" ++ "0")` starts with a
zero hex character, so its own stored nonce 0 is a genuine difficulty-1
solution. -/
def p29 : Chunk := .mk none [] 0 29 1 "" ""

def sol0 : Chunk := .mk (some p29) [] 1 0 1 "" ""

example : g1.ValidatePoW 0 = some false := by decide
example : g1.ValidatePoW 1 = some false := by decide
example : g1.ValidatePoW 2 = some false := by decide
example : g1.ValidatePoW 3 = some true := by decide
example : d0.ValidatePoW 0 = some false := by decide
example : d65.ValidatePoW 0 = none := by decide
example : (chunkP.GenerateHash false).1 = pHashBytes := by decide
example : (chunkC.GenerateHash false).1 = cHashBytes := by decide
example : chunkC.IsValid = some true := by decide
example : chunkP.IsValid = some true := by decide
example : sol0.IsValidPoW = some true := by decide
example : sol0.IsMined = false := by decide

/-! ## Helper lemmas -/

theorem Chunk.eta (ck : Chunk) :
    Chunk.mk ck.Parent ck.Hash ck.Index ck.PoW ck.Difficulty ck.Data ck.Timestamp = ck := by
  cases ck; rfl

@[simp] theorem Chunk.withHash_Hash (ck : Chunk) (h : List Nat) :
    (ck.withHash h).Hash = h := by cases ck; rfl

@[simp] theorem Chunk.withHash_withHash (ck : Chunk) (h₁ h₂ : List Nat) :
    (ck.withHash h₁).withHash h₂ = ck.withHash h₂ := by cases ck; rfl

@[simp] theorem Chunk.withHash_Hash_self (ck : Chunk) :
    ck.withHash ck.Hash = ck := by cases ck; rfl

@[simp] theorem Chunk.withPoW_PoW (ck : Chunk) (w : Int) :
    (ck.withPoW w).PoW = w := by cases ck; rfl

@[simp] theorem Chunk.withPoW_Parent (ck : Chunk) (w : Int) :
    (ck.withPoW w).Parent = ck.Parent := by cases ck; rfl

@[simp] theorem Chunk.withPoW_Difficulty (ck : Chunk) (w : Int) :
    (ck.withPoW w).Difficulty = ck.Difficulty := by cases ck; rfl

/-- `ValidatePoW` reads only the parent's nonce and the difficulty, so storing
a nonce into the chunk does not change which nonces validate. -/
theorem Chunk.validatePoW_withPoW (ck : Chunk) (w n : Int) :
    (ck.withPoW w).ValidatePoW n = ck.ValidatePoW n := by cases ck; rfl

/-- `GenerateHash(false)` restores the receiver exactly. -/
theorem Chunk.generateHash_false_state (ck : Chunk) :
    (ck.GenerateHash false).2 = ck := by cases ck; rfl

theorem hexEncode_length (bs : List Nat) : (hexEncode bs).length = 2 * bs.length := by
  induction bs with
  | nil => rfl
  | cons b rest ih => simp [hexEncode, ih]; omega

theorem sha256_length (ms : List Nat) : (sha256 ms).length = 32 := by
  simp [sha256, w32ToBytes]

/-- The hex rendering of a SHA-256 digest has 64 characters. -/
theorem sha256hex_length (ms : List Nat) : (hexEncode (sha256 ms)).length = 64 := by
  rw [hexEncode_length, sha256_length]

/-! ## The claims -/

/-- **C6** Hash round-trip: after `GenerateHash(save := true)`, a
non-committing `GenerateHash(false)` on the unmodified chunk returns the same
digest, and that digest equals the chunk's stored `Hash` field. -/
theorem generateHash_roundTrip (ck : Chunk) :
    (((ck.GenerateHash true).2.GenerateHash false).1 = (ck.GenerateHash true).2.Hash) ∧
    (((ck.GenerateHash true).2.GenerateHash false).1 = (ck.GenerateHash true).1) := by
  cases ck; exact ⟨rfl, rfl⟩

/-- **C7** `GenerateHash(false)` leaves every field of the chunk (including
the temporarily cleared `Hash`) as it was, and both modes return the SHA-256
of the chunk's encoding with the `Hash` field cleared; `save := true` stores
that digest into the `Hash` field. -/
theorem generateHash_frame (ck : Chunk) :
    ((ck.GenerateHash false).2 = ck) ∧
    ((ck.GenerateHash false).1 = sha256 (ck.withHash []).Encode) ∧
    ((ck.GenerateHash true).1 = sha256 (ck.withHash []).Encode) ∧
    ((ck.GenerateHash true).2 = ck.withHash (sha256 (ck.withHash []).Encode)) := by
  refine ⟨ck.generateHash_false_state, ?_, ?_, ?_⟩ <;> (cases ck; rfl)

/-- **C8** For a genesis chunk, `GetParent` returns the zero-valued virtual
chunk: nonce 0, difficulty 0, index 0, empty hash.  `GetParent` is a pure
function of the chunk value, so repeated calls yield this same zero value and
nothing is mutated or stored. -/
theorem getParent_genesis (ck : Chunk) (h : ck.Parent = none) :
    ck.GetParent = zeroChunk ∧ ck.GetParent.PoW = 0 ∧ ck.GetParent.Difficulty = 0 ∧
    ck.GetParent.Index = 0 ∧ ck.GetParent.Hash = [] := by
  have hg : ck.GetParent = zeroChunk := by rw [Chunk.GetParent, h]
  exact ⟨hg, by rw [hg]; rfl, by rw [hg]; rfl, by rw [hg]; rfl, by rw [hg]; rfl⟩

theorem getParent_genesis_witness :
    g1.GetParent = zeroChunk ∧ g1.GetParent.PoW = 0 ∧ g1.GetParent.Difficulty = 0 ∧
    g1.GetParent.Index = 0 ∧ g1.GetParent.Hash = [] :=
  getParent_genesis g1 rfl

/-- **C10** The query operations mutate neither the chunk nor its parent.  In
this embedding `IsMined`, `ValidatePoW`, `IsValidPoW`, `IsValid`, `Encode` and
`GetParent` are pure functions of the chunk value (Go value receivers and
copies), so the substance of the claim is that the one internally-mutating
operation they delegate to, `GenerateHash(false)` (used by `IsValid`'s `re` on
value copies of the chunk and of its parent), restores its receiver. -/
theorem query_ops_frame (ck : Chunk) :
    ((ck.GenerateHash false).2 = ck) ∧
    (∀ pck, ck.Parent = some pck → (pck.GenerateHash false).2 = pck) ∧
    ((ck.GetParent.GenerateHash false).2 = ck.GetParent) :=
  ⟨ck.generateHash_false_state, fun pck _ => pck.generateHash_false_state,
   ck.GetParent.generateHash_false_state⟩

theorem query_ops_frame_witness :
    (chunkC.GenerateHash false).2 = chunkC ∧ (chunkP.GenerateHash false).2 = chunkP :=
  ⟨(query_ops_frame chunkC).1, (query_ops_frame chunkC).2.1 chunkP rfl⟩

/-- **C2, counterexample** A difficulty-0 chunk does not validate nonce 0:
`fmt.Sprintf("%0*d", 0, 0)` renders `"0"` (the width is only a minimum), while
the compared digest prefix `sum[:0]` is empty, so the comparison fails. -/
theorem validatePoW_dif0_cex : d0.ValidatePoW 0 = some false := by decide

/-- **C2, amended** For every chunk with difficulty 0, `ValidatePoW` returns
`false` on every nonce (the padding string is `"0"`, one character, but the
compared prefix is empty), so no nonce ever solves the puzzle and `Mine` never
terminates. -/
theorem validatePoW_dif0 (ck : Chunk) (h : ck.Difficulty = 0) :
    (∀ n : Int, ck.ValidatePoW n = some false) ∧
    ¬∃ m : Nat, ck.ValidatePoW (Int.ofNat m) = some true := by
  have h1 : ∀ n : Int, ck.ValidatePoW n = some false := by
    intro n
    simp only [Chunk.ValidatePoW, h]
    rw [if_pos ⟨le_refl 0, Int.natCast_nonneg _⟩]
    simp
    decide
  exact ⟨h1, fun ⟨m, hm⟩ => by rw [h1] at hm; simp at hm⟩

theorem validatePoW_dif0_witness : d0.ValidatePoW 5 = some false :=
  (validatePoW_dif0 d0 rfl).1 5

/-- **C4, counterexample** At difficulty 65 the Go expression `sum[:dif]`
slices the 64-character digest out of range and panics (modelled `none`);
`ValidatePoW` does not return `false`. -/
theorem validatePoW_overlong_cex :
    d65.ValidatePoW 0 = none ∧ d65.ValidatePoW 0 ≠ some false := by decide

/-- **C4, amended** For every chunk whose difficulty exceeds 64 (the digest
length in hex characters), `ValidatePoW` panics with a slice-bounds error
(modelled by `none`) on every nonce, rather than returning `false`; `Mine`
therefore panics on its first candidate instead of looping forever. -/
theorem validatePoW_overlong (ck : Chunk) (h : (64 : Int) < ck.Difficulty) (n : Int) :
    ck.ValidatePoW n = none := by
  simp only [Chunk.ValidatePoW]
  rw [if_neg]
  rintro ⟨-, h2⟩
  rw [sha256hex_length] at h2
  omega

theorem validatePoW_overlong_witness : d65.ValidatePoW 7 = none :=
  validatePoW_overlong d65 (by decide) 7

/-- **C9, counterexample** A chunk whose stored nonce 0 is a genuine
difficulty-1 solution (its parent's nonce is 29 and `sha256("29" ++ "0")`
starts with a zero hex character) is nevertheless reported as not mined,
because `IsMined` is just `PoW > 0`. -/
theorem isMined_cex : sol0.IsValidPoW = some true ∧ sol0.IsMined = false := by decide

/-- **C9, amended** `IsMined` returns `true` iff the stored nonce is strictly
positive.  A chunk at the unset sentinel 0 is reported as not mined, but so is
a chunk whose stored nonce is a genuine solution of value 0. -/
theorem isMined_iff_pos (ck : Chunk) :
    (ck.IsMined = true ↔ 0 < ck.PoW) ∧ (ck.PoW = 0 → ck.IsMined = false) := by
  constructor
  · simp [Chunk.IsMined]
  · intro h; simp [Chunk.IsMined, h]

theorem isMined_iff_pos_witness : d0.IsMined = false :=
  (isMined_iff_pos d0).2 rfl

/-- **C1** When some nonce validates, `Mine` returns the least valid nonce
(the linear search from 0 stops at the first success), stores it into the
chunk's `PoW` field, and the mined chunk's stored nonce validates. -/
theorem mine_correct (ck : Chunk)
    (h : ∃ n : Nat, ck.ValidatePoW (Int.ofNat n) = some true) :
    ck.ValidatePoW (ck.Mine h).1 = some true ∧
    (∀ m : Nat, Int.ofNat m < (ck.Mine h).1 → ck.ValidatePoW (Int.ofNat m) ≠ some true) ∧
    ((ck.Mine h).2 = ck.withPoW (ck.Mine h).1) ∧
    ((ck.Mine h).2.PoW = (ck.Mine h).1) ∧
    ((ck.Mine h).2.ValidatePoW (ck.Mine h).2.PoW = some true) := by
  refine ⟨Nat.find_spec h, ?_, rfl, ck.withPoW_PoW _, ?_⟩
  · intro m hm
    exact Nat.find_min h (Int.ofNat_lt.mp hm)
  · show (ck.withPoW (Int.ofNat (Nat.find h))).ValidatePoW
        ((ck.withPoW (Int.ofNat (Nat.find h))).PoW) = some true
    rw [Chunk.withPoW_PoW, Chunk.validatePoW_withPoW]
    exact Nat.find_spec h

theorem mine_correct_witness :
    (g1.Mine ⟨3, by decide⟩).1 = 3 ∧
    g1.ValidatePoW (g1.Mine ⟨3, by decide⟩).1 = some true ∧
    (g1.Mine ⟨3, by decide⟩).2.ValidatePoW ((g1.Mine ⟨3, by decide⟩).2.PoW) = some true := by
  have hex : ∃ n : Nat, g1.ValidatePoW (Int.ofNat n) = some true := ⟨3, by decide⟩
  have h3 : Nat.find hex = 3 := by
    rw [Nat.find_eq_iff]
    exact ⟨by decide, by decide⟩
  refine ⟨?_, (mine_correct g1 hex).1, (mine_correct g1 hex).2.2.2.2⟩
  show Int.ofNat (Nat.find hex) = 3
  rw [h3]; rfl

/-- The spec's formulation (§3, §4.3) of proof-of-work validity, written from
the spec's words for comparison with `Chunk.ValidatePoW`: the lowercase hex
rendering of `sha256(itoa(parent.PoW) ++ itoa(nonce))` has its first
`difficulty` characters all equal to `'0'`. -/
def specValidatePoW (ck : Chunk) (pow : Int) : Bool :=
  ((hexEncode (sha256 (utf8 (itoa ck.GetParent.PoW ++ itoa pow)))).take
    ck.Difficulty.toNat).all (fun c => c == '0')

/-- **C3** For difficulties between 1 and 64, `ValidatePoW` returns `true`
exactly when the spec's leading-zeros formula holds. -/
theorem validatePoW_refines (ck : Chunk) (pow : Int)
    (h1 : 1 ≤ ck.Difficulty) (h64 : ck.Difficulty ≤ 64) :
    ck.ValidatePoW pow = some true ↔ specValidatePoW ck pow = true := by
  have hne : ¬ck.Difficulty ≤ 0 := by omega
  have key : ck.ValidatePoW pow =
      some (decide ((hexEncode (sha256 (utf8 (itoa ck.GetParent.PoW ++ itoa pow)))).take
        ck.Difficulty.toNat = goPad ck.Difficulty)) := by
    simp only [Chunk.ValidatePoW]
    rw [if_pos ⟨by omega, by rw [sha256hex_length]; exact_mod_cast h64⟩]
  have hn : ck.Difficulty.toNat ≤ 64 := by omega
  have hlen2 : ((hexEncode (sha256 (utf8 (itoa ck.GetParent.PoW ++ itoa pow)))).take
      ck.Difficulty.toNat).length = ck.Difficulty.toNat := by
    rw [List.length_take, sha256hex_length]; omega
  rw [key, specValidatePoW, goPad, if_neg hne]
  simp only [Option.some.injEq, decide_eq_true_eq, List.all_eq_true, beq_iff_eq]
  constructor
  · intro ht c hc
    rw [ht] at hc
    exact List.eq_of_mem_replicate hc
  · intro hall
    exact List.eq_replicate_iff.mpr ⟨hlen2, hall⟩

theorem validatePoW_refines_witness :
    (g1.ValidatePoW 3 = some true ↔ specValidatePoW g1 3 = true) ∧
    specValidatePoW g1 3 = true ∧ specValidatePoW g1 2 = false :=
  ⟨validatePoW_refines g1 3 (by decide) (by decide), by decide, by decide⟩

/-- **C5** `IsValid` returns `true` exactly when the parent linkage check
(vacuous for genesis: index succession, parent's stored nonce validates,
parent's non-committing hash regeneration matches its stored hash) and the
self check (`IsMined` and the chunk's own hash regeneration matches its stored
hash) both hold. -/
theorem isValid_iff (ck : Chunk) :
    ck.IsValid = some true ↔
      ((∀ pck, ck.Parent = some pck →
          pck.Index + 1 = ck.Index ∧ pck.IsValidPoW = some true ∧
          (pck.GenerateHash false).1 = pck.Hash) ∧
        ck.IsMined = true ∧ (ck.GenerateHash false).1 = ck.Hash) := by
  rcases hp : ck.Parent with - | pck
  · simp [Chunk.IsValid, hp, reHash, Bool.and_eq_true, decide_eq_true_eq]
  · simp only [Chunk.IsValid, hp]
    by_cases hidx : pck.Index + 1 = ck.Index
    · rw [if_pos hidx]
      rcases hpw : pck.IsValidPoW with - | pw
      · simp [hpw, hidx]
      · simp [hpw, hidx, reHash, Bool.and_eq_true, decide_eq_true_eq, and_assoc]
    · rw [if_neg hidx]
      simp [hidx]

theorem isValid_iff_witness : chunkC.IsValid = some true := by
  refine (isValid_iff chunkC).mpr ⟨?_, by decide, by decide⟩
  intro pck hp
  have he : chunkP = pck := Option.some.inj hp
  rw [← he]
  exact ⟨by decide, by decide, by decide⟩

end GoChain
